import Mathlib

/-!
Verification of the operation-bridge and progress-aggregation subsystem of
project-nexus-desktop.

Each JavaScript function relevant to the claims is shallowly embedded as an
executable Lean definition, translated directly from the source:

* `toggleOption` and friends — the extraction-option toggling of the
  `useExtraction` hook (`src/unnamed/part_011`);
* the progress-percentage derivation of the progress effect of the orchestrator
  (`src/unnamed/part_011`), including JavaScript `parseInt` / `Math.min` /
  `Math.max` semantics with `NaN`;
* `calculateOverallProgress` (`src/unnamed/part_011`);
* the per-file progress-map upsert and the `ProgressCard` display filter
  (`src/unnamed/part_011`, `src/unnamed/part_000`);
* the `executePythonFunction` stdout classification and close handler
  (`src/main/python-bridge.js`), with JSON parsing kept abstract;
* `pythonApi.onProgress` from the preload script (`src/preload/index.js`);
* the worker-count clamping of the analysis tab
  (`src/renderer/src/components/AnalysisTab.jsx`);
* `toggleBatchMode` (`src/unnamed/part_011`);
* `_convertToPythonParams` (`src/main/python-bridge.js`).

JavaScript numbers are modelled as exact rationals extended with `NaN`
where `NaN` can actually arise; strings are Lean strings (the ASCII
fragment, which is the one exercised by identifiers in the code and
sentinels).
-/

namespace Nexus

/-! ## Extraction options (`useExtraction` option state and `toggleOption`) -/

/-- The `extractionOptions` state object of `useExtraction`:
all five flags start `false`. -/
structure ExtractionOptions where
  audioOnly : Bool
  subtitleOnly : Bool
  includeVideo : Bool
  videoOnly : Bool
  removeLetterbox : Bool
deriving DecidableEq, Repr

/-- The initial option configuration (all flags `false`). -/
def initialOptions : ExtractionOptions :=
  { audioOnly := false, subtitleOnly := false, includeVideo := false
    videoOnly := false, removeLetterbox := false }

/-- The option names `toggleOption` can be called with. -/
inductive OptionKey where
  | audioOnly | subtitleOnly | includeVideo | videoOnly | removeLetterbox
deriving DecidableEq, Repr

/-- Dynamic field read `prev[option]` used by `toggleOption`. -/
def ExtractionOptions.get (s : ExtractionOptions) : OptionKey → Bool
  | .audioOnly => s.audioOnly
  | .subtitleOnly => s.subtitleOnly
  | .includeVideo => s.includeVideo
  | .videoOnly => s.videoOnly
  | .removeLetterbox => s.removeLetterbox

/-- Dynamic field write `{ ...prev, [option]: b }` used by `toggleOption`. -/
def ExtractionOptions.set (s : ExtractionOptions) : OptionKey → Bool → ExtractionOptions
  | .audioOnly, b => { s with audioOnly := b }
  | .subtitleOnly, b => { s with subtitleOnly := b }
  | .includeVideo, b => { s with includeVideo := b }
  | .videoOnly, b => { s with videoOnly := b }
  | .removeLetterbox, b => { s with removeLetterbox := b }

/-- The source function `toggleOption` from `useExtraction`: flip the named flag, then
resolve conflicts — enabling `videoOnly` clears `audioOnly` and
`subtitleOnly`; enabling `audioOnly` or `subtitleOnly` clears `videoOnly`. -/
def toggleOption (option : OptionKey) (prev : ExtractionOptions) : ExtractionOptions :=
  let newOptions := prev.set option (!prev.get option)
  let newOptions :=
    if option = .videoOnly ∧ newOptions.videoOnly then
      { newOptions with audioOnly := false, subtitleOnly := false }
    else newOptions
  if (option = .audioOnly ∨ option = .subtitleOnly) ∧ newOptions.get option then
    { newOptions with videoOnly := false }
  else newOptions

/-- A sequence of `toggleOption` calls applied from a starting state. -/
def runToggles (start : ExtractionOptions) (calls : List OptionKey) : ExtractionOptions :=
  calls.foldl (fun s o => toggleOption o s) start

/-- The property that at most one of `audioOnly`, `subtitleOnly`, `videoOnly` is true:
the exclusion property C1 asserts over the whole triple. -/
def atMostOneExclusive (s : ExtractionOptions) : Bool :=
  (cond s.audioOnly 1 0) + (cond s.subtitleOnly 1 0) + (cond s.videoOnly 1 0) ≤ 1

/-- The exclusion the code actually maintains: `videoOnly` never holds
together with `audioOnly` or `subtitleOnly`. -/
def videoExclusive (s : ExtractionOptions) : Bool :=
  !(s.videoOnly && (s.audioOnly || s.subtitleOnly))

theorem videoExclusive_toggle (o : OptionKey) (s : ExtractionOptions)
    (h : videoExclusive s = true) : videoExclusive (toggleOption o s) = true := by
  obtain ⟨a, su, iv, v, rl⟩ := s
  cases o <;> cases a <;> cases su <;> cases v <;>
    simp_all [videoExclusive, toggleOption, ExtractionOptions.get, ExtractionOptions.set]

/-- C1 (counterexample): toggling `audioOnly` then `subtitleOnly` from the
initial configuration leaves both of them true, so the claimed "at most one
of the three" invariant fails. -/
theorem toggleOption_not_atMostOne :
    atMostOneExclusive
      (runToggles initialOptions [OptionKey.audioOnly, OptionKey.subtitleOnly]) = false := by
  decide

/-- C1 (amended): after any sequence of `toggleOption` calls from the initial
all-false configuration, `videoOnly` is never true together with `audioOnly`
or `subtitleOnly`; moreover the toggles force exactly that pairwise exclusion:
toggling `videoOnly` leaves `audioOnly` (resp. `subtitleOnly`) true only if
`videoOnly` was already on, and symmetrically toggling `audioOnly` or
`subtitleOnly` leaves `videoOnly` true only if that flag was already on. -/
theorem toggleOption_videoExclusive :
    (∀ calls : List OptionKey, videoExclusive (runToggles initialOptions calls) = true)
    ∧ (∀ s : ExtractionOptions,
        (toggleOption .videoOnly s).audioOnly = (s.videoOnly && s.audioOnly)
        ∧ (toggleOption .videoOnly s).subtitleOnly = (s.videoOnly && s.subtitleOnly)
        ∧ (toggleOption .audioOnly s).videoOnly = (s.audioOnly && s.videoOnly)
        ∧ (toggleOption .subtitleOnly s).videoOnly = (s.subtitleOnly && s.videoOnly)) := by
  constructor
  · intro calls
    have main : ∀ (l : List OptionKey) (s : ExtractionOptions),
        videoExclusive s = true → videoExclusive (runToggles s l) = true := by
      intro l
      induction l with
      | nil => intro s h; exact h
      | cons o rest ih =>
          intro s h
          exact ih _ (videoExclusive_toggle o s h)
    exact main calls initialOptions (by decide)
  · intro s
    obtain ⟨a, su, iv, v, rl⟩ := s
    cases a <;> cases su <;> cases v <;>
      simp [toggleOption, ExtractionOptions.get, ExtractionOptions.set]

/-! ## Preload `pythonApi.onProgress` (`src/preload/index.js`)

The renderer-side listener table of `ipcRenderer` is modelled as a list of
`(channel, listener-id)` pairs; `ipcRenderer.on` appends a pair and
`ipcRenderer.removeAllListeners(channel)` drops every pair on the channel. -/

/-- The per-operation channel name `python:progress:${operationId}`. -/
def progressChannel (operationId : String) : String :=
  "python:progress:" ++ operationId

/-- Model of `ipcRenderer.removeAllListeners(channel)` on the listener table. -/
def removeAllListeners (channel : String) (table : List (String × Nat)) :
    List (String × Nat) :=
  table.filter (fun p => ¬ p.1 = channel)

/-- The registration `pythonApi.onProgress(operationId, callback)`: remove existing listeners
on the channel of the operation, then register the new listener `id`.  The
returned unsubscribe closure is `removeAllListeners` on the same channel. -/
def onProgressRegister (operationId : String) (id : Nat)
    (table : List (String × Nat)) : List (String × Nat) :=
  removeAllListeners (progressChannel operationId) table ++ [(progressChannel operationId, id)]

/-- C7: the unsubscribe closure returned by `onProgress` is idempotent on any
listener table — in particular calling it a second time, or calling it after
the operation completed and the table no longer holds the listener, changes
nothing; and right after registration it leaves no listener on the channel. -/
theorem onProgress_unsubscribe_idempotent :
    (∀ (operationId : String) (table : List (String × Nat)),
      removeAllListeners (progressChannel operationId)
        (removeAllListeners (progressChannel operationId) table) =
      removeAllListeners (progressChannel operationId) table)
    ∧ (∀ (operationId : String) (id : Nat) (table : List (String × Nat)),
      (removeAllListeners (progressChannel operationId)
        (onProgressRegister operationId id table)).all
          (fun p => ¬ p.1 = progressChannel operationId) = true) := by
  constructor
  · intro opId table
    simp [removeAllListeners, List.filter_filter]
  · intro opId id table
    simp only [List.all_eq_true, removeAllListeners]
    intro p hp
    have := List.of_mem_filter hp
    simpa using this

/-! ## Worker-count clamping (`AnalysisTab.jsx`)

`maxAllowedWorkers = Math.min(navigator.hardwareConcurrency || 4, 16)` and
the `onChange` handler of the worker-count input stores
`Math.max(1, Math.min(maxAllowedWorkers, parseInt(e.target.value) || 1))`.
A `parseInt` result is an `Option Int`, `none` standing for `NaN`. -/

/-- The bound `Math.min(navigator.hardwareConcurrency || 4, 16)` — `hc = 0` models a
falsy `hardwareConcurrency`. -/
def maxAllowedWorkers (hc : Nat) : Nat :=
  min (if hc = 0 then 4 else hc) 16

/-- The coercion `parseInt(e.target.value) || 1`: `NaN` (= `none`) and `0` are falsy. -/
def workerInputOrOne : Option Int → Int
  | none => 1
  | some n => if n = 0 then 1 else n

/-- The value stored by the `onChange` handler of the worker-count input. -/
def storedMaxWorkers (hc : Nat) (input : Option Int) : Int :=
  max 1 (min ((maxAllowedWorkers hc : Nat) : Int) (workerInputOrOne input))

/-- C8: for any host reporting at least one unit of concurrency, every write
through the worker-count input stores a value in `[1, min(hc, 16)]`;
values above the upper bound clamp to it, values below `1` clamp to `1`,
and in particular writing `99` on a host reporting `8` stores `8`. -/
theorem storedMaxWorkers_bounds (hc : Nat) (input : Option Int) (hhc : 1 ≤ hc) :
    (1 ≤ storedMaxWorkers hc input
      ∧ storedMaxWorkers hc input ≤ ((min hc 16 : Nat) : Int))
    ∧ (∀ v : Int, ((maxAllowedWorkers hc : Nat) : Int) < v →
        storedMaxWorkers hc (some v) = ((maxAllowedWorkers hc : Nat) : Int))
    ∧ (∀ v : Int, v < 1 → storedMaxWorkers hc (some v) = 1)
    ∧ storedMaxWorkers 8 (some 99) = 8 := by
  have hma : maxAllowedWorkers hc = min hc 16 := by
    unfold maxAllowedWorkers
    rcases Nat.eq_zero_or_pos hc with h0 | hpos
    · omega
    · simp [Nat.pos_iff_ne_zero.mp hpos]
  have hma1 : (1 : Int) ≤ ((maxAllowedWorkers hc : Nat) : Int) := by
    rw [hma]; omega
  refine ⟨⟨le_max_left 1 _, ?_⟩, ?_, ?_, by decide⟩
  · rw [storedMaxWorkers, hma]
    have : min (((min hc 16 : Nat) : Int)) (workerInputOrOne input)
        ≤ ((min hc 16 : Nat) : Int) := min_le_left _ _
    rw [hma] at hma1
    omega
  · intro v hv
    rw [storedMaxWorkers]
    have hv0 : v ≠ 0 := by omega
    have hvi : workerInputOrOne (some v) = v := by simp [workerInputOrOne, hv0]
    rw [hvi]
    omega
  · intro v hv
    rw [storedMaxWorkers]
    rcases eq_or_ne v 0 with rfl | hv0
    · have : workerInputOrOne (some 0) = 1 := by simp [workerInputOrOne]
      rw [this]
      omega
    · have hvi : workerInputOrOne (some v) = v := by simp [workerInputOrOne, hv0]
      rw [hvi]
      omega

/-- C8 witness: a host reporting 8 hardware units clamps a write of 99 to 8,
within the stated bounds. -/
theorem storedMaxWorkers_bounds_witness :
    1 ≤ (8 : Nat)
    ∧ (1 ≤ storedMaxWorkers 8 (some 99)
        ∧ storedMaxWorkers 8 (some 99) ≤ ((min 8 16 : Nat) : Int)) := by
  refine ⟨by decide, ?_⟩
  have h := storedMaxWorkers_bounds 8 (some 99) (by decide)
  exact h.1

/-! ## `executePythonFunction` stdout classification and close handler
(`src/main/python-bridge.js`)

The stdout stream of the worker is modelled as the list of lines obtained from
splitting the data chunks on `"\n"`.  JSON parsing is kept abstract: a
`parse : String → Option α` stands for `JSON.parse`, returning `none` when
the real call would throw, and `isObj : α → Bool` stands for the
`typeof progressData === "object"` guard (a truthy object check). -/

/-- The settled state of the `Promise` returned by `executePythonFunction`. -/
inductive Outcome (α : Type) where
  | resolve (value : α)
  | reject (message : String)
deriving DecidableEq, Repr

/-- JavaScript whitespace (the characters relevant to this code base). -/
def isJsWhitespace (c : Char) : Bool :=
  c = ' ' ∨ c = '\t' ∨ c = '\n' ∨ c = '\r'

/-- Model of `String.prototype.trim()`: strip whitespace from both ends. -/
def jsTrim (s : String) : String :=
  ⟨((s.data.dropWhile isJsWhitespace).reverse.dropWhile isJsWhitespace).reverse⟩

/-- Model of `String.prototype.startsWith(pre)`. -/
def strStartsWith (s pre : String) : Bool :=
  pre.data.isPrefixOf s.data

/-- Model of `String.prototype.substring(n)` (drop the first `n` characters). -/
def strDrop (s : String) (n : Nat) : String :=
  ⟨s.data.drop n⟩

/-- Accumulation of the non-progress result body by the stdout data handler:
blank lines are skipped, `PROGRESS:`-prefixed lines are diverted to the
progress path, every other line is appended to `result` with a newline. -/
def accumResult (lines : List String) : String :=
  lines.foldl
    (fun result line =>
      if jsTrim line = "" then result
      else if strStartsWith line "PROGRESS:" then result
      else result ++ line ++ "\n")
    ""

/-- The progress events forwarded to the renderer: for each
`PROGRESS:`-prefixed non-blank line, `line.substring(9).trim()` is parsed;
a parsed truthy object is sent, a parse failure is logged and dropped. -/
def progressEvents {α : Type} (parse : String → Option α) (isObj : α → Bool)
    (lines : List String) : List α :=
  lines.foldr
    (fun line events =>
      if jsTrim line = "" then events
      else if strStartsWith line "PROGRESS:" then
        match parse (jsTrim (strDrop line 9)) with
        | some progressData => if isObj progressData then progressData :: events else events
        | none => events
      else events)
    []

/-- The `close` handler: exit code `0` trims and parses the accumulated
result body, resolving on success and rejecting with a parse error on
failure; a non-zero exit code rejects with a message embedding the code and
the accumulated stderr text. -/
def pythonClose {α : Type} (parse : String → Option α)
    (result errorOutput : String) (code : Int) : Outcome α :=
  if code = 0 then
    match parse (jsTrim result) with
    | some parsedResult => .resolve parsedResult
    | none => .reject "Failed to parse Python result"
  else
    .reject ("Python process exited with code " ++ toString code ++ ": " ++ errorOutput)

/-- C5: on exit code 0 the call resolves with the parsed trimmed result body
when it parses, and rejects with a parse error when it does not; on a
non-zero exit code it rejects with a message containing both the exit code
and the accumulated stderr text. -/
theorem pythonClose_spec {α : Type} (parse : String → Option α)
    (lines : List String) (errorOutput : String) (code : Int) :
    (code = 0 → ∀ v : α, parse (jsTrim (accumResult lines)) = some v →
      pythonClose parse (accumResult lines) errorOutput code = .resolve v)
    ∧ (code = 0 → parse (jsTrim (accumResult lines)) = none →
      pythonClose parse (accumResult lines) errorOutput code =
        .reject "Failed to parse Python result")
    ∧ (code ≠ 0 → ∃ msg : String,
      pythonClose parse (accumResult lines) errorOutput code = .reject msg
      ∧ (toString code).toList <:+: msg.toList
      ∧ errorOutput.toList <:+: msg.toList) := by
  refine ⟨?_, ?_, ?_⟩
  · intro h0 v hv
    simp [pythonClose, h0, hv]
  · intro h0 hn
    simp [pythonClose, h0, hn]
  · intro hne
    refine ⟨"Python process exited with code " ++ toString code ++ ": " ++ errorOutput,
      by simp [pythonClose, hne], ?_, ?_⟩
    · refine ⟨("Python process exited with code ").toList, (": " ++ errorOutput).toList, ?_⟩
      simp [String.toList, String.data_append]
    · refine ⟨("Python process exited with code " ++ toString code ++ ": ").toList, [], ?_⟩
      simp [String.toList, String.data_append]

/-- C5 witness: a worker emitting one garbage progress line and the body
`"7"` resolves with the parsed value on exit code 0, and exit code 1 with
stderr `"file not found"` rejects with a message containing `1` and
`file not found`. -/
theorem pythonClose_spec_witness :
    ((0 : Int) = 0
      ∧ (fun s => if s = "7" then some 7 else none) (jsTrim (accumResult ["PROGRESS:oops", "7"]))
          = some 7
      ∧ pythonClose (fun s => if s = "7" then some 7 else none)
          (accumResult ["PROGRESS:oops", "7"]) "" 0 = .resolve 7)
    ∧ ((1 : Int) ≠ 0
      ∧ ∃ msg : String,
          pythonClose (fun s => if s = "7" then some (7 : Nat) else none)
            (accumResult ["PROGRESS:oops", "7"]) "file not found" 1 = .reject msg
          ∧ (toString (1 : Int)).toList <:+: msg.toList
          ∧ ("file not found").toList <:+: msg.toList) := by
  refine ⟨⟨rfl, by decide, ?_⟩, ⟨by decide, ?_⟩⟩
  · exact (pythonClose_spec (fun s => if s = "7" then some 7 else none)
      ["PROGRESS:oops", "7"] "" 0).1 rfl 7 (by decide)
  · exact (pythonClose_spec (fun s => if s = "7" then some (7 : Nat) else none)
      ["PROGRESS:oops", "7"] "file not found" 1).2.2 (by decide)

/-- C6: a `PROGRESS:`-prefixed line whose remainder fails to parse
contributes nothing to the result body and no progress event, leaves the
close outcome unchanged for every exit code, and in particular a later exit
code 0 with a parsable body still resolves with the parsed result. -/
theorem progressParseFailure_ignored {α : Type} (parse : String → Option α)
    (isObj : α → Bool) (pre post : List String) (line : String)
    (hpfx : strStartsWith line "PROGRESS:" = true)
    (hfail : parse (jsTrim (strDrop line 9)) = none) :
    accumResult (pre ++ line :: post) = accumResult (pre ++ post)
    ∧ progressEvents parse isObj (pre ++ line :: post) =
        progressEvents parse isObj (pre ++ post)
    ∧ (∀ (errorOutput : String) (code : Int),
        pythonClose parse (accumResult (pre ++ line :: post)) errorOutput code =
        pythonClose parse (accumResult (pre ++ post)) errorOutput code)
    ∧ (∀ (errorOutput : String) (v : α),
        parse (jsTrim (accumResult (pre ++ post))) = some v →
        pythonClose parse (accumResult (pre ++ line :: post)) errorOutput 0 =
          .resolve v) := by
  have hacc : accumResult (pre ++ line :: post) = accumResult (pre ++ post) := by
    unfold accumResult
    rw [List.foldl_append, List.foldl_append, List.foldl_cons]
    rcases eq_or_ne (jsTrim line) "" with hbl | hbl
    · rw [if_pos hbl]
    · rw [if_neg hbl, if_pos hpfx]
  refine ⟨hacc, ?_, ?_, ?_⟩
  · unfold progressEvents
    rw [List.foldr_append, List.foldr_append, List.foldr_cons]
    rcases eq_or_ne (jsTrim line) "" with hbl | hbl
    · rw [if_pos hbl]
    · rw [if_neg hbl, if_pos hpfx, hfail]
  · intro errorOutput code
    rw [hacc]
  · intro errorOutput v hv
    rw [hacc]
    simp [pythonClose, hv]

/-- C6 witness: the unparsable progress line `"PROGRESS:oops"` received
before the body `"7"` neither pollutes the result body nor prevents the
call from resolving with the parsed value on exit code 0. -/
theorem progressParseFailure_ignored_witness :
    (strStartsWith "PROGRESS:oops" "PROGRESS:" = true
      ∧ (fun s => if s = "7" then some 7 else none) (jsTrim (strDrop "PROGRESS:oops" 9)) = none)
    ∧ accumResult (([] : List String) ++ "PROGRESS:oops" :: ["7"]) =
        accumResult (([] : List String) ++ ["7"])
    ∧ pythonClose (fun s => if s = "7" then some 7 else none)
        (accumResult (([] : List String) ++ "PROGRESS:oops" :: ["7"])) "" 0 =
        .resolve 7 := by
  have h := progressParseFailure_ignored (fun s => if s = "7" then some 7 else none)
    (fun _ => true) [] ["7"] "PROGRESS:oops" (by decide) (by decide)
  exact ⟨⟨by decide, by decide⟩, h.1, h.2.2.2 "" 7 (by decide)⟩

/-! ## Progress-percentage derivation (`useExtraction` progress effect)

The progress effect reads `percentage` from the event payload with the
precedence written in the source, then normalises it with
`parseInt` inside a `try`/`catch` and clamps with
`Math.max(0, Math.min(100, percentage))`.  JavaScript numbers are modelled
as `JNum` — an exact rational or `NaN` — and payload values as `JVal`.
`parseInt` never throws: on garbage it returns `NaN`, so the `catch` branch
of the source is dead code and is not reachable in the model either. -/

/-- A JavaScript number: `NaN` or an exact value. -/
inductive JNum where
  | nan
  | val (q : ℚ)
deriving DecidableEq, Repr

/-- A JavaScript value as it can appear in a progress payload. -/
inductive JVal where
  | vNull
  | vUndef
  | vBool (b : Bool)
  | vNum (n : JNum)
  | vStr (s : String)
deriving DecidableEq, Repr

/-- The test `typeof v === "number"` (`NaN` is a number in JavaScript). -/
def JVal.isNumber : JVal → Bool
  | .vNum _ => true
  | _ => false

/-- Model of `Math.min` (`NaN` propagates). -/
def jsMin (a b : JNum) : JNum :=
  match a, b with
  | .val x, .val y => .val (min x y)
  | _, _ => .nan

/-- Model of `Math.max` (`NaN` propagates). -/
def jsMax (a b : JNum) : JNum :=
  match a, b with
  | .val x, .val y => .val (max x y)
  | _, _ => .nan

/-- Leading decimal digits of a character list as a natural number, paired
with whether at least one digit was consumed. -/
def parseDigits : List Char → Nat → Bool → JNum
  | c :: rest, acc, started =>
      if '0' ≤ c ∧ c ≤ '9' then
        parseDigits rest (acc * 10 + (c.toNat - '0'.toNat)) true
      else if started then .val acc else .nan
  | [], acc, started => if started then .val acc else .nan

/-- String coercion used by `parseInt` on non-string arguments. -/
def JVal.toJsString : JVal → String
  | .vNull => "null"
  | .vUndef => "undefined"
  | .vBool b => if b then "true" else "false"
  | .vNum .nan => "NaN"
  | .vNum (.val q) => toString q
  | .vStr s => s

/-- Model of `parseInt(v, 10)`: coerce to string, skip leading whitespace, read an
optional sign and then leading decimal digits; no digits means `NaN`. -/
def jsParseInt (v : JVal) : JNum :=
  let chars := (v.toJsString.data).dropWhile isJsWhitespace
  match chars with
  | '-' :: rest =>
      match parseDigits rest 0 false with
      | .val n => .val (-(n : ℚ))
      | .nan => .nan
  | '+' :: rest => parseDigits rest 0 false
  | cs => parseDigits cs 0 false

/-- The progress payload as delivered to the effect: `args` is the
positional array (`none` when the field is absent/falsy) and
`kwargsPercentage` is the `percentage` field of a present `kwargs` object
(`none` when `kwargs` itself is absent/falsy). -/
structure ProgressPayload where
  args : Option (List JVal)
  kwargsPercentage : Option JVal
deriving DecidableEq, Repr

/-- The percentage derivation of the progress effect: positional index 2 if
present and non-`null`; else keyed `percentage` if a number; else positional
index 0 if a number; else `0`.  Non-numbers then go through `parseInt`, and
the result is clamped with `Math.max(0, Math.min(100, ·))`. -/
def derivePercentage (p : ProgressPayload) : JNum :=
  let percentage : JVal :=
    match p.args with
    | some args =>
        if args.length > 2 ∧ args.get? 2 ≠ some .vNull then
          args.getD 2 .vUndef
        else
          match p.kwargsPercentage with
          | some kp => if kp.isNumber then kp else fallbackArg0 args
          | none => fallbackArg0 args
    | none =>
        match p.kwargsPercentage with
        | some kp => if kp.isNumber then kp else .vNum (.val 0)
        | none => .vNum (.val 0)
  let coerced : JNum :=
    match percentage with
    | .vNum n => n
    | v => jsParseInt v
  jsMax (.val 0) (jsMin (.val 100) coerced)
where
  /-- Precedence step (3): positional index 0 if present and a number,
  else the initial `0`. -/
  fallbackArg0 (args : List JVal) : JVal :=
    if args.length > 0 ∧ (args.getD 0 .vUndef).isNumber then args.getD 0 .vUndef
    else .vNum (.val 0)

/-- C2: at the payload whose positional index 2 holds the non-numeric string
`"abc"`, the derived percentage is `NaN`, not the `0` the specification
prescribes: `parseInt` returns `NaN` instead of throwing, so the `catch`
branch that would coerce to `0` never runs, and `NaN` survives the
`Math.max(0, Math.min(100, ·))` clamp. -/
theorem derivePercentage_nan_on_nonNumeric :
    derivePercentage
      { args := some [JVal.vNull, JVal.vNull, JVal.vStr "abc"], kwargsPercentage := none }
        = JNum.nan
    ∧ derivePercentage
      { args := some [JVal.vNull, JVal.vNull, JVal.vStr "abc"], kwargsPercentage := none }
        ≠ JNum.val 0 := by
  constructor
  · decide
  · decide

/-! ## Batch progress state (`useExtraction` batch tracking, `ProgressCard`)

The per-file progress map (a JavaScript object keyed by `file_index`) is a
list of entries.  For the overall-progress computation the `progress` field
carries full JavaScript number semantics (`JNum`): the malformed-percentage
path of the progress effect stores `NaN` into the map (see the C2 analysis
of `derivePercentage`), and `calculateOverallProgress` meets those entries
through its `fileProgress.progress || 0` guard.  The display-side claims
(C4) concern only the entry upserted at exactly 100 and keep the
rational-valued entry type below. -/

/-- One value of `fileProgressMap`, as written by the progress effect, with
a rational percentage (the display-filter claims never inspect a `NaN`
percentage, only the entry upserted at exactly 100). -/
structure FileProgressEntry where
  index : Nat
  fileName : String
  progress : ℚ
  status : String
  threadId : String
deriving DecidableEq, Repr

/-- One value of `fileProgressMap` with the `progress` field in full
JavaScript number semantics: `NaN` is representable, since the
malformed-percentage path reachably stores it. -/
structure StoredFileEntry where
  index : Nat
  fileName : String
  progress : JNum
  status : String
  threadId : String
deriving DecidableEq, Repr

/-- The slice of `useExtraction` state that `calculateOverallProgress`
reads. -/
structure BatchProgressState where
  batchMode : Bool
  progressValue : ℚ
  fileProgressMap : List StoredFileEntry
  processedBatchFiles : Nat
  totalBatchFiles : Nat
  inputPathsLength : Nat
deriving DecidableEq, Repr

/-- Model of `Math.round` on an exact value: round half toward positive infinity. -/
def jsRound (q : ℚ) : ℚ := ((⌊q + 1 / 2⌋ : ℤ) : ℚ)

/-- Falsy default `fileProgress.progress || 0`: a nonzero number passes
through, while the falsy values — `NaN` and `0` — contribute `0`.  The
result is always an ordinary number. -/
def jsOrZero : JNum → ℚ
  | .nan => 0
  | .val q => if q = 0 then 0 else q

/-- The total `totalBatchFiles || inputPaths.length` from `calculateOverallProgress`. -/
def totalFilesOf (s : BatchProgressState) : Nat :=
  if s.totalBatchFiles = 0 then s.inputPathsLength else s.totalBatchFiles

/-- The source function `calculateOverallProgress` from `useExtraction`, translated clause by
clause from the source. -/
def calculateOverallProgress (s : BatchProgressState) : ℚ :=
  if ¬ s.batchMode ∨ s.fileProgressMap.length = 0 then s.progressValue
  else
    let activeFileCount : Nat := s.fileProgressMap.length
    let completedFiles : Nat := s.processedBatchFiles
    let totalFiles : Nat := totalFilesOf s
    if totalFiles = 0 then 0
    else
      let activeFilesProgressSum : ℚ :=
        (s.fileProgressMap.map (fun e => jsOrZero e.progress)).sum
      let completedFilesWeight : ℚ := ((completedFiles : ℚ) / (totalFiles : ℚ)) * 100
      let activeFilesWeight : ℚ := (activeFileCount : ℚ) / (totalFiles : ℚ)
      let activeFilesProgress : ℚ :=
        (activeFilesProgressSum / (((if activeFileCount = 0 then 1 else activeFileCount) : Nat) : ℚ))
          * activeFilesWeight
      min (jsRound (completedFilesWeight + activeFilesProgress)) 100

/-- Model of JavaScript `+` on numbers (`NaN` propagates). -/
def jsAdd (a b : JNum) : JNum :=
  match a, b with
  | .val x, .val y => .val (x + y)
  | _, _ => .nan

/-- The sum of the percentages of the entries of `fileProgressMap`, read
literally in JavaScript number semantics: one `NaN` percentage poisons the
whole sum. -/
def rawProgressSum (m : List StoredFileEntry) : JNum :=
  m.foldr (fun e acc => jsAdd e.progress acc) (.val 0)

/-- The sum the code actually accumulates: every percentage goes through the
`|| 0` default first. -/
def guardedProgressSum (m : List StoredFileEntry) : ℚ :=
  (m.map (fun e => jsOrZero e.progress)).sum

/-- The overall-progress formula exactly as the specification words it:
`round((completedFiles/totalFiles)*100 +
(activeFileProgressSum/max(activeFileCount,1))*(activeFileCount/totalFiles))`
clamped to at most 100, in JavaScript number semantics — when the sum of
percentages is `NaN`, the division, multiplication, addition, `Math.round`
and the `Math.min` clamp all return `NaN`. -/
def specOverallFormula (completedFiles totalFiles activeFileCount : Nat)
    (activeFileProgressSum : JNum) : JNum :=
  match activeFileProgressSum with
  | .nan => .nan
  | .val q =>
      .val (min 100
        (jsRound ((completedFiles : ℚ) / (totalFiles : ℚ) * 100
          + q / ((max activeFileCount 1 : Nat) : ℚ)
            * ((activeFileCount : ℚ) / (totalFiles : ℚ)))))

/-- A reachable batch state holding a `NaN` percentage (stored by the
malformed-percentage path of the progress effect): batch of 3, one file
completed, entries at `NaN` and 40. -/
def nanBatchState : BatchProgressState :=
  { batchMode := true
    progressValue := 0
    fileProgressMap :=
      [ { index := 0, fileName := "a.mkv", progress := .nan, status := "", threadId := "t1" }
      , { index := 1, fileName := "b.mkv", progress := .val 40, status := "", threadId := "t2" } ]
    processedBatchFiles := 1
    totalBatchFiles := 3
    inputPathsLength := 3 }

/-- C3 (counterexample): at a reachable state holding a `NaN` percentage
entry, the code computes the ordinary number 47 — its `|| 0` guard silences
the `NaN` — while the claimed formula over the sum of the percentages of the
entries in `fileProgressMap` is `NaN`, so the claimed equality fails. -/
theorem calculateOverallProgress_not_rawSpec :
    JNum.val (calculateOverallProgress nanBatchState) ≠
      specOverallFormula nanBatchState.processedBatchFiles (totalFilesOf nanBatchState)
        nanBatchState.fileProgressMap.length
        (rawProgressSum nanBatchState.fileProgressMap)
    ∧ rawProgressSum nanBatchState.fileProgressMap = JNum.nan
    ∧ calculateOverallProgress nanBatchState = 47 := by
  have hraw : rawProgressSum nanBatchState.fileProgressMap = JNum.nan := by
    decide
  have h47 : calculateOverallProgress nanBatchState = 47 := by
    simp only [calculateOverallProgress, nanBatchState, totalFilesOf]
    norm_num [jsOrZero, jsRound]
  refine ⟨?_, hraw, h47⟩
  rw [hraw, h47]
  simp [specOverallFormula]

/-- C3 (amended): in batch mode with a non-empty per-file map, the
recomputed overall progress is exactly the formula the specification gives
over `completedFiles = processedBatchFiles`,
`totalFiles = totalBatchFiles || inputPaths.length`,
`activeFileCount = |fileProgressMap|` and the `|| 0`-guarded sum of the
percentages in the map (a `NaN` or `0` percentage contributes `0`), clamped
to at most 100 — and it is `0` when `totalFiles` is `0`.  On maps whose
percentages are all numbers the guarded sum coincides with the plain sum of
percentages, so the amendment changes only the `NaN` case. -/
theorem calculateOverallProgress_spec (s : BatchProgressState)
    (hb : s.batchMode = true) (hm : s.fileProgressMap ≠ []) :
    (totalFilesOf s = 0 → calculateOverallProgress s = 0)
    ∧ (0 < totalFilesOf s → JNum.val (calculateOverallProgress s) =
        specOverallFormula s.processedBatchFiles (totalFilesOf s)
          s.fileProgressMap.length
          (.val (guardedProgressSum s.fileProgressMap)))
    ∧ (∀ m : List StoredFileEntry, (∀ e ∈ m, e.progress ≠ .nan) →
        rawProgressSum m = .val (guardedProgressSum m)) := by
  have hlen : s.fileProgressMap.length ≠ 0 := by
    simpa [List.length_eq_zero] using hm
  refine ⟨?_, ?_, ?_⟩
  · intro h0
    unfold calculateOverallProgress
    rw [if_neg (by simp [hb, hlen])]
    simp [h0]
  · intro hpos
    have hne : ¬ totalFilesOf s = 0 := by omega
    have hcount : ((if s.fileProgressMap.length = 0 then 1 else s.fileProgressMap.length) : Nat)
        = max s.fileProgressMap.length 1 := by
      rw [if_neg hlen]
      omega
    unfold calculateOverallProgress specOverallFormula guardedProgressSum
    rw [if_neg (by simp [hb, hlen])]
    simp only [hne, if_false, ite_false, eq_false hne]
    rw [hcount, min_comm]
  · intro m hm'
    induction m with
    | nil => rfl
    | cons e rest ih =>
        have he : e.progress ≠ .nan := hm' e (by simp)
        obtain ⟨q, hq⟩ : ∃ q : ℚ, e.progress = .val q := by
          cases hp : e.progress with
          | nan => exact absurd hp he
          | val q => exact ⟨q, rfl⟩
        have hrest := ih (fun x hx => hm' x (by simp [hx]))
        unfold rawProgressSum at hrest ⊢
        rw [List.foldr_cons, hrest, hq]
        unfold guardedProgressSum jsOrZero
        rw [List.map_cons, List.sum_cons, hq]
        unfold jsAdd
        by_cases hq0 : q = 0
        · simp [hq0]
        · simp [hq0]

/-- Concrete state for the C3 witness: batch of 3, one file completed, two
entries in flight at 100% and 40%, all percentages ordinary numbers. -/
def exampleBatchState : BatchProgressState :=
  { batchMode := true
    progressValue := 0
    fileProgressMap :=
      [ { index := 0, fileName := "a.mkv", progress := .val 100, status := "", threadId := "t1" }
      , { index := 1, fileName := "b.mkv", progress := .val 40, status := "", threadId := "t2" } ]
    processedBatchFiles := 1
    totalBatchFiles := 3
    inputPathsLength := 3 }

/-- C3 witness: on the concrete batch state the computation in the code
matches the formula given in the specification over the guarded sum, and —
all percentages being numbers — the guarded sum equals the plain sum. -/
theorem calculateOverallProgress_spec_witness :
    exampleBatchState.batchMode = true
    ∧ exampleBatchState.fileProgressMap ≠ []
    ∧ 0 < totalFilesOf exampleBatchState
    ∧ JNum.val (calculateOverallProgress exampleBatchState) =
        specOverallFormula exampleBatchState.processedBatchFiles
          (totalFilesOf exampleBatchState)
          exampleBatchState.fileProgressMap.length
          (.val (guardedProgressSum exampleBatchState.fileProgressMap))
    ∧ (∀ e ∈ exampleBatchState.fileProgressMap, e.progress ≠ .nan)
    ∧ rawProgressSum exampleBatchState.fileProgressMap =
        .val (guardedProgressSum exampleBatchState.fileProgressMap) :=
  ⟨rfl, by decide, by decide,
    (calculateOverallProgress_spec exampleBatchState rfl (by decide)).2.1 (by decide),
    by decide,
    (calculateOverallProgress_spec exampleBatchState rfl (by decide)).2.2
      exampleBatchState.fileProgressMap (by decide)⟩

/-! ## Per-file progress upsert and the displayed active set -/

/-- Falsy default `x || d` on an optional string field (`undefined` and `""` are falsy). -/
def jsOrStr (v : Option String) (d : String) : String :=
  match v with
  | some s => if s = "" then d else s
  | none => d

/-- Truthiness of `kwargs.current` and `kwargs.total` (absent or `0` is falsy). -/
def truthyNat : Option Nat → Bool
  | none => false
  | some n => !(n == 0)

/-- The keyed fields of a progress event that the batch branches of the
progress effect read (`none` models an absent field). -/
structure BatchKwargs where
  fileIndex : Option Nat
  fileName : Option String
  current : Option Nat
  total : Option Nat
  statusField : Option String
  successField : Option Bool
  description : Option String
  threadId : Option String
deriving DecidableEq, Repr

/-- The condition under which the progress effect counts a file as
completed: `current` and `total` truthy, `status === "complete"` and
`success === true`. -/
def completeSignal (kw : BatchKwargs) : Bool :=
  truthyNat kw.current && truthyNat kw.total
    && (kw.statusField == some "complete") && (kw.successField == some true)

/-- The update of `processedBatchFiles` performed by the progress effect:
inside the `current && total` branch, a `complete`/`success` event
increments the counter. -/
def processedStep (kw : BatchKwargs) (processedBatchFiles : Nat) : Nat :=
  if truthyNat kw.current && truthyNat kw.total then
    if (kw.statusField == some "complete") && (kw.successField == some true) then
      processedBatchFiles + 1
    else processedBatchFiles
  else processedBatchFiles

/-- The map write `newMap[fileIndex] = {...}`: replace the entry at the
index if present, else append it. -/
def upsertFileProgress (m : List FileProgressEntry) (e : FileProgressEntry) :
    List FileProgressEntry :=
  if m.any (fun x => x.index == e.index) then
    m.map (fun x => if x.index = e.index then e else x)
  else m ++ [e]

/-- The `setFileProgressMap` update of the progress effect: when the event
carries a `file_index`, upsert the entry of that file with the derived
percentage, status text and worker thread. -/
def fileMapStep (kw : BatchKwargs) (fallbackText : String) (percentage : ℚ)
    (m : List FileProgressEntry) : List FileProgressEntry :=
  match kw.fileIndex with
  | some fileIndex =>
      upsertFileProgress m
        { index := fileIndex
          fileName := jsOrStr kw.fileName ("File " ++ toString fileIndex)
          progress := percentage
          status := jsOrStr kw.description fallbackText
          threadId := jsOrStr kw.threadId "unknown" }
  | none => m

/-- The `fileProgressArray` memo of `ProgressCard`: the map values sorted by index,
keeping only files still in progress (`< 100%`). -/
def displayedFileProgress (m : List FileProgressEntry) : List FileProgressEntry :=
  (List.insertionSort (fun a b => a.index ≤ b.index) m).filter
    (fun e => decide (e.progress < 100))

theorem mem_upsertFileProgress_eq {m : List FileProgressEntry}
    {e x : FileProgressEntry} (hx : x ∈ upsertFileProgress m e)
    (hidx : x.index = e.index) : x = e := by
  unfold upsertFileProgress at hx
  split at hx
  · rcases List.mem_map.mp hx with ⟨y, hy, hxy⟩
    by_cases h : y.index = e.index
    · rw [if_pos h] at hxy
      exact hxy.symm
    · rw [if_neg h] at hxy
      exact absurd (hxy ▸ hidx) h
  · rename_i hany
    rcases List.mem_append.mp hx with h | h
    · exfalso
      apply hany
      rw [List.any_eq_true]
      exact ⟨x, h, by simp [hidx]⟩
    · simpa using h

/-- C4: when a batch progress event carrying a `file_index` reaches 100%,
the upserted entry is absent from the displayed active set of `ProgressCard`
(every displayed entry has a different index), while `processedBatchFiles`
changes only according to the `complete`/`success` signal — the removal from
the visible set itself never touches the completed-file counter. -/
theorem fileProgress_hundred_hidden (m : List FileProgressEntry)
    (kw : BatchKwargs) (fallbackText : String) (processedBatchFiles : Nat)
    (fileIndex : Nat) (hidx : kw.fileIndex = some fileIndex) :
    (∀ e ∈ displayedFileProgress (fileMapStep kw fallbackText 100 m),
      e.index ≠ fileIndex)
    ∧ processedStep kw processedBatchFiles =
        processedBatchFiles + (if completeSignal kw then 1 else 0) := by
  constructor
  · intro e he hcontra
    unfold displayedFileProgress at he
    have he' := List.mem_filter.mp he
    have hmem : e ∈ fileMapStep kw fallbackText 100 m :=
      (List.mem_insertionSort _).mp he'.1
    unfold fileMapStep at hmem
    rw [hidx] at hmem
    have heq := mem_upsertFileProgress_eq hmem (by simpa using hcontra)
    have hlt : e.progress < 100 := by simpa using he'.2
    rw [heq] at hlt
    exact absurd hlt (by norm_num)
  · unfold processedStep completeSignal
    rcases truthyNat kw.current <;> rcases truthyNat kw.total <;>
      rcases (kw.statusField == some "complete") <;>
        rcases (kw.successField == some true) <;> simp

/-- C4 witness: a `file_index = 0` event at 100% over a map whose other
entry sits at 40% leaves only index 1 displayed, and the counter moves only
with the completion signal. -/
theorem fileProgress_hundred_hidden_witness :
    ({ fileIndex := some 0, fileName := some "a.mkv", current := some 1
       total := some 3, statusField := some "complete", successField := some true
       description := none, threadId := some "t1" } : BatchKwargs).fileIndex = some 0
    ∧ (∀ e ∈ displayedFileProgress
        (fileMapStep
          { fileIndex := some 0, fileName := some "a.mkv", current := some 1
            total := some 3, statusField := some "complete", successField := some true
            description := none, threadId := some "t1" } "Processing files..." 100
          [ { index := 1, fileName := "b.mkv", progress := 40, status := ""
              threadId := "t2" } ]),
        e.index ≠ 0)
    ∧ processedStep
        { fileIndex := some 0, fileName := some "a.mkv", current := some 1
          total := some 3, statusField := some "complete", successField := some true
          description := none, threadId := some "t1" } 0 =
        0 + (if completeSignal
          { fileIndex := some 0, fileName := some "a.mkv", current := some 1
            total := some 3, statusField := some "complete", successField := some true
            description := none, threadId := some "t1" } then 1 else 0) := by
  refine ⟨rfl, ?_, ?_⟩
  · exact (fileProgress_hundred_hidden
      [ { index := 1, fileName := "b.mkv", progress := 40, status := ""
          threadId := "t2" } ]
      { fileIndex := some 0, fileName := some "a.mkv", current := some 1
        total := some 3, statusField := some "complete", successField := some true
        description := none, threadId := some "t1" } "Processing files..." 0 0 rfl).1
  · exact (fileProgress_hundred_hidden
      [ { index := 1, fileName := "b.mkv", progress := 40, status := ""
          threadId := "t2" } ]
      { fileIndex := some 0, fileName := some "a.mkv", current := some 1
        total := some 3, statusField := some "complete", successField := some true
        description := none, threadId := some "t1" } "Processing files..." 0 0 rfl).2

/-! ## `toggleBatchMode` on the full hook state -/

/-- The `useExtraction` state variables (raw progress payloads and analysis
results kept opaque as strings, which the mode switch never inspects). -/
structure ExtractionHookState where
  isExtracting : Bool
  extractionResult : Option String
  error : Option String
  progressInfo : Option String
  progressValue : ℚ
  progressText : String
  fileProgressMap : List FileProgressEntry
  totalBatchFiles : Nat
  processedBatchFiles : Nat
  selectedLanguages : List String
  extractionOptions : ExtractionOptions
  batchMode : Bool
  inputPaths : List String
  maxWorkers : Int
  batchAnalyzed : Option String
  isBatchAnalyzing : Bool
deriving DecidableEq, Repr

/-- The source function `toggleBatchMode` from `useExtraction`: switching away from batch mode
clears the batch-specific state; switching into batch mode only flips the
flag. -/
def toggleBatchMode (s : ExtractionHookState) : ExtractionHookState :=
  if s.batchMode then
    { s with batchMode := false, inputPaths := [], batchAnalyzed := none
             fileProgressMap := [], totalBatchFiles := 0, processedBatchFiles := 0 }
  else
    { s with batchMode := true }

/-- C9: `toggleBatchMode` preserves the shared configuration (selected
languages and extraction options) in both directions; leaving batch mode
clears exactly `inputPaths`, the batch analysis result, `fileProgressMap`
and both batch counters while every other field is untouched, and entering
batch mode only flips the mode flag. -/
theorem toggleBatchMode_frame (s : ExtractionHookState) :
    ((toggleBatchMode s).selectedLanguages = s.selectedLanguages
      ∧ (toggleBatchMode s).extractionOptions = s.extractionOptions)
    ∧ (s.batchMode = true →
        (toggleBatchMode s).batchMode = false
        ∧ (toggleBatchMode s).inputPaths = []
        ∧ (toggleBatchMode s).batchAnalyzed = none
        ∧ (toggleBatchMode s).fileProgressMap = []
        ∧ (toggleBatchMode s).totalBatchFiles = 0
        ∧ (toggleBatchMode s).processedBatchFiles = 0
        ∧ (toggleBatchMode s).isExtracting = s.isExtracting
        ∧ (toggleBatchMode s).extractionResult = s.extractionResult
        ∧ (toggleBatchMode s).error = s.error
        ∧ (toggleBatchMode s).progressInfo = s.progressInfo
        ∧ (toggleBatchMode s).progressValue = s.progressValue
        ∧ (toggleBatchMode s).progressText = s.progressText
        ∧ (toggleBatchMode s).maxWorkers = s.maxWorkers
        ∧ (toggleBatchMode s).isBatchAnalyzing = s.isBatchAnalyzing)
    ∧ (s.batchMode = false →
        toggleBatchMode s = { s with batchMode := true }) := by
  rcases hb : s.batchMode <;> simp [toggleBatchMode, hb]

/-- Concrete batch-mode hook state for the C9 witness. -/
def exampleHookBatch : ExtractionHookState :=
  { isExtracting := true, extractionResult := none, error := none
    progressInfo := some "p", progressValue := 47, progressText := "Processing files..."
    fileProgressMap :=
      [ { index := 1, fileName := "b.mkv", progress := 40, status := "", threadId := "t2" } ]
    totalBatchFiles := 3, processedBatchFiles := 1
    selectedLanguages := ["eng", "jpn"], extractionOptions := initialOptions
    batchMode := true, inputPaths := ["a.mkv", "b.mkv", "c.mkv"], maxWorkers := 2
    batchAnalyzed := some "r", isBatchAnalyzing := false }

/-- Concrete single-file hook state for the C9 witness. -/
def exampleHookSingle : ExtractionHookState :=
  { exampleHookBatch with batchMode := false }

/-- C9 witness: on concrete states the mode switch clears the batch state in
one direction, only flips the flag in the other, and preserves the shared
configuration both ways. -/
theorem toggleBatchMode_frame_witness :
    (exampleHookBatch.batchMode = true
      ∧ (toggleBatchMode exampleHookBatch).fileProgressMap = []
      ∧ (toggleBatchMode exampleHookBatch).selectedLanguages =
          exampleHookBatch.selectedLanguages)
    ∧ (exampleHookSingle.batchMode = false
      ∧ toggleBatchMode exampleHookSingle = { exampleHookSingle with batchMode := true }) :=
  ⟨⟨rfl, ((toggleBatchMode_frame exampleHookBatch).2.1 rfl).2.2.2.1,
      (toggleBatchMode_frame exampleHookBatch).1.1⟩,
    ⟨rfl, (toggleBatchMode_frame exampleHookSingle).2.2 rfl⟩⟩

/-! ## `_convertToPythonParams` (`src/main/python-bridge.js`)

`key.replace(/([A-Z])/g, "_$1").toLowerCase()` inserts an underscore before
every ASCII capital and lowercases the whole key; the regex `[A-Z]` matches
ASCII capitals only, and the identifiers this function sees are ASCII, so
lowercasing is modelled on the ASCII letters. -/

/-- Does the regex class `[A-Z]` match this character? -/
def asciiUpper : Char → Bool
  | 'A' | 'B' | 'C' | 'D' | 'E' | 'F' | 'G' | 'H' | 'I' | 'J' | 'K' | 'L' | 'M'
  | 'N' | 'O' | 'P' | 'Q' | 'R' | 'S' | 'T' | 'U' | 'V' | 'W' | 'X' | 'Y' | 'Z' => true
  | _ => false

/-- Lowercasing `toLowerCase` of one character (ASCII letters). -/
def jsLowerChar : Char → Char
  | 'A' => 'a' | 'B' => 'b' | 'C' => 'c' | 'D' => 'd' | 'E' => 'e' | 'F' => 'f'
  | 'G' => 'g' | 'H' => 'h' | 'I' => 'i' | 'J' => 'j' | 'K' => 'k' | 'L' => 'l'
  | 'M' => 'm' | 'N' => 'n' | 'O' => 'o' | 'P' => 'p' | 'Q' => 'q' | 'R' => 'r'
  | 'S' => 's' | 'T' => 't' | 'U' => 'u' | 'V' => 'v' | 'W' => 'w' | 'X' => 'x'
  | 'Y' => 'y' | 'Z' => 'z'
  | c => c

/-- The rewrite `replace` inserting an underscore before each capital, followed by `toLowerCase()`, character by
character. -/
def snakeChars : List Char → List Char
  | [] => []
  | c :: rest =>
      if asciiUpper c then '_' :: jsLowerChar c :: snakeChars rest
      else jsLowerChar c :: snakeChars rest

/-- The camelCase → snake_case key rewrite of `_convertToPythonParams`. -/
def snakeKey (key : String) : String :=
  ⟨snakeChars key.data⟩

theorem asciiUpper_jsLowerChar (c : Char) : asciiUpper (jsLowerChar c) = false := by
  unfold jsLowerChar
  split
  case _ => rfl
  all_goals first
    | rfl
    | (unfold asciiUpper
       split <;> simp_all)

theorem jsLowerChar_of_not_upper (c : Char) (h : asciiUpper c = false) :
    jsLowerChar c = c := by
  unfold asciiUpper at h
  unfold jsLowerChar
  split <;> simp_all

theorem jsLowerChar_idem (c : Char) : jsLowerChar (jsLowerChar c) = jsLowerChar c :=
  jsLowerChar_of_not_upper _ (asciiUpper_jsLowerChar c)

theorem snakeChars_cons (c : Char) (rest : List Char) :
    snakeChars (c :: rest) =
      if asciiUpper c then '_' :: jsLowerChar c :: snakeChars rest
      else jsLowerChar c :: snakeChars rest := rfl

theorem asciiUpper_underscore : asciiUpper '_' = false := rfl

theorem jsLowerChar_underscore : jsLowerChar '_' = '_' := rfl

theorem snakeChars_idem (cs : List Char) : snakeChars (snakeChars cs) = snakeChars cs := by
  induction cs with
  | nil => rfl
  | cons c rest ih =>
      by_cases h : asciiUpper c = true
      · simp [snakeChars_cons, h, asciiUpper_underscore, jsLowerChar_underscore,
          asciiUpper_jsLowerChar, jsLowerChar_idem, ih]
      · simp [snakeChars_cons, h, asciiUpper_jsLowerChar, jsLowerChar_idem, ih]

theorem snakeKey_idem (key : String) : snakeKey (snakeKey key) = snakeKey key :=
  congrArg String.mk (snakeChars_idem key.data)

/-- A JavaScript value as passed to `_convertToPythonParams`: mappings are
ordered association lists, as JavaScript objects preserve insertion order. -/
inductive JParam where
  | pNull
  | pUndef
  | pBool (b : Bool)
  | pNum (q : ℚ)
  | pStr (s : String)
  | pArr (xs : List JParam)
  | pObj (fields : List (String × JParam))

/-- The assignment `result[key] = v`: overwrite the value in place when the key exists,
else append the pair. -/
def objSet (result : List (String × JParam)) (key : String) (v : JParam) :
    List (String × JParam) :=
  if result.any (fun p => p.1 == key) then
    result.map (fun p => if p.1 = key then (key, v) else p)
  else result ++ [(key, v)]

mutual

/-- The source function `_convertToPythonParams`: non-mappings (null, primitives, arrays) are
returned unchanged; for a mapping, each key is rewritten to snake_case and
plain-object values are converted recursively, assignments going through
`objSet` in key order. -/
def convertToPythonParams : JParam → JParam
  | .pObj fields => .pObj (convertFields fields [])
  | v => v

/-- The `Object.keys(params).forEach` loop of `_convertToPythonParams`,
with `result` the object built so far. -/
def convertFields : List (String × JParam) → List (String × JParam) →
    List (String × JParam)
  | [], result => result
  | (key, .pObj inner) :: rest, result =>
      convertFields rest
        (objSet result (snakeKey key) (convertToPythonParams (.pObj inner)))
  | (key, v) :: rest, result =>
      convertFields rest (objSet result (snakeKey key) v)

end

theorem convert_pObj (fields : List (String × JParam)) :
    convertToPythonParams (.pObj fields) = .pObj (convertFields fields []) := by
  simp [convertToPythonParams]

theorem convertFields_cons (key : String) (v : JParam)
    (rest result : List (String × JParam)) :
    convertFields ((key, v) :: rest) result =
      convertFields rest (objSet result (snakeKey key) (convertToPythonParams v)) := by
  cases v <;> simp [convertFields, convertToPythonParams]

theorem mem_objSet {result : List (String × JParam)} {key : String} {v : JParam}
    {p : String × JParam} (hp : p ∈ objSet result key v) :
    p ∈ result ∨ p = (key, v) := by
  unfold objSet at hp
  split at hp
  · rcases List.mem_map.mp hp with ⟨y, hy, hxy⟩
    by_cases h : y.1 = key
    · right
      rw [if_pos h] at hxy
      exact hxy.symm
    · left
      rw [if_neg h] at hxy
      exact hxy ▸ hy
  · rcases List.mem_append.mp hp with h | h
    · left; exact h
    · right; simpa using h

theorem not_mem_keys_of_not_any {result : List (String × JParam)} {key : String}
    (h : ¬ result.any (fun p => p.1 == key) = true) :
    key ∉ result.map Prod.fst := by
  intro hmem
  rcases List.mem_map.mp hmem with ⟨p, hp, hpk⟩
  exact h (List.any_eq_true.mpr ⟨p, hp, by simp [hpk]⟩)

theorem objSet_of_not_mem {result : List (String × JParam)} {key : String} {v : JParam}
    (h : key ∉ result.map Prod.fst) :
    objSet result key v = result ++ [(key, v)] := by
  unfold objSet
  rw [if_neg]
  intro hany
  rcases List.any_eq_true.mp hany with ⟨p, hp, hpk⟩
  exact h (List.mem_map.mpr ⟨p, hp, by simpa using hpk⟩)

theorem keys_objSet_of_any (result : List (String × JParam)) (key : String) (v : JParam)
    (h : result.any (fun p => p.1 == key) = true) :
    (objSet result key v).map Prod.fst = result.map Prod.fst := by
  unfold objSet
  rw [if_pos h, List.map_map]
  apply List.map_congr_left
  intro p _
  by_cases hk : p.1 = key
  · simp [hk]
  · simp [hk]

theorem keys_nodup_objSet (result : List (String × JParam)) (key : String) (v : JParam)
    (hnd : (result.map Prod.fst).Nodup) :
    ((objSet result key v).map Prod.fst).Nodup := by
  by_cases h : result.any (fun p => p.1 == key) = true
  · rw [keys_objSet_of_any result key v h]
    exact hnd
  · rw [objSet_of_not_mem (not_mem_keys_of_not_any h), List.map_append]
    simp only [List.map_cons, List.map_nil]
    exact List.nodup_append.mpr ⟨hnd, List.nodup_singleton key,
      by
        intro a ha hb
        simp only [List.mem_singleton] at hb
        exact absurd (hb ▸ ha) (not_mem_keys_of_not_any h)⟩

/-- A field already in converted form: its key is a fixed point of the
snake_case rewrite and its value a fixed point of the conversion. -/
def ConvertedField (p : String × JParam) : Prop :=
  snakeKey p.1 = p.1 ∧ convertToPythonParams p.2 = p.2

theorem convertFields_of_converted :
    ∀ (l result : List (String × JParam)),
      (∀ p ∈ l, ConvertedField p) →
      ((l.map Prod.fst).Nodup) →
      (∀ p ∈ l, p.1 ∉ result.map Prod.fst) →
      convertFields l result = result ++ l := by
  intro l
  induction l with
  | nil =>
      intro result _ _ _
      simp [convertFields]
  | cons hd rest ih =>
      intro result hconv hnd hdisj
      obtain ⟨key, v⟩ := hd
      rw [convertFields_cons]
      have hck : snakeKey key = key := (hconv (key, v) (by simp)).1
      have hcv : convertToPythonParams v = v := (hconv (key, v) (by simp)).2
      rw [hck, hcv,
        objSet_of_not_mem (hdisj (key, v) (by simp))]
      rw [ih (result ++ [(key, v)])
        (fun p hp => hconv p (by simp [hp]))
        (by simpa using hnd.of_cons)
        ?_]
      · simp
      · intro p hp
        rw [List.map_append, List.mem_append]
        rintro (h | h)
        · exact hdisj p (by simp [hp]) h
        · simp only [List.map_cons, List.map_nil, List.mem_singleton] at h
          have hkey : key ∉ rest.map Prod.fst := by
            rw [List.map_cons] at hnd
            exact (List.nodup_cons.mp hnd).1
          exact hkey (h ▸ List.mem_map.mpr ⟨p, hp, rfl⟩)

theorem convertFields_good :
    ∀ (l result : List (String × JParam)),
      (∀ p ∈ result, ConvertedField p) →
      ((result.map Prod.fst).Nodup) →
      (∀ p ∈ l, convertToPythonParams (convertToPythonParams p.2)
        = convertToPythonParams p.2) →
      (∀ p ∈ convertFields l result, ConvertedField p)
      ∧ ((convertFields l result).map Prod.fst).Nodup := by
  intro l
  induction l with
  | nil =>
      intro result hconv hnd _
      have hz : convertFields [] result = result := by simp [convertFields]
      rw [hz]
      exact ⟨hconv, hnd⟩
  | cons hd rest ih =>
      intro result hconv hnd hidem
      obtain ⟨key, v⟩ := hd
      rw [convertFields_cons]
      apply ih
      · intro p hp
        rcases mem_objSet hp with h | h
        · exact hconv p h
        · rw [h]
          exact ⟨snakeKey_idem key, hidem (key, v) (by simp)⟩
      · exact keys_nodup_objSet _ _ _ hnd
      · intro p hp
        exact hidem p (by simp [hp])

theorem convertToPythonParams_converted (v : JParam) :
    convertToPythonParams (convertToPythonParams v) = convertToPythonParams v := by
  suffices H : ∀ (n : Nat) (v : JParam), sizeOf v ≤ n →
      convertToPythonParams (convertToPythonParams v) = convertToPythonParams v by
    exact H (sizeOf v) v le_rfl
  intro n
  induction n using Nat.strong_induction_on with
  | _ n ih =>
    intro v hv
    cases v with
    | pObj fields =>
        have hfields : ∀ p ∈ fields,
            convertToPythonParams (convertToPythonParams p.2)
              = convertToPythonParams p.2 := by
          intro p hp
          have hlt : sizeOf p < sizeOf fields := List.sizeOf_lt_of_mem hp
          obtain ⟨k, w⟩ := p
          have hsz : sizeOf w < n := by
            have h1 : sizeOf (k, w) = 1 + sizeOf k + sizeOf w := by simp
            have h2 : sizeOf (JParam.pObj fields) = 1 + sizeOf fields := by simp
            omega
          exact ih (sizeOf w) hsz w le_rfl
        have hgood := convertFields_good fields [] (by simp) (by simp) hfields
        rw [convert_pObj, convert_pObj]
        rw [convertFields_of_converted (convertFields fields []) [] hgood.1 hgood.2
          (by simp)]
        simp
    | pNull => simp [convertToPythonParams]
    | pUndef => simp [convertToPythonParams]
    | pBool b => simp [convertToPythonParams]
    | pNum q => simp [convertToPythonParams]
    | pStr s => simp [convertToPythonParams]
    | pArr xs => simp [convertToPythonParams]

/-- C10: `_convertToPythonParams` is idempotent — every key it produces is a
fixed point of the camelCase → snake_case rewrite and every value it stores
is already converted, so a second application changes nothing — and
non-mapping inputs (null, undefined, primitives, arrays) are returned
unchanged. -/
theorem convertToPythonParams_idempotent :
    (∀ v : JParam, convertToPythonParams (convertToPythonParams v)
      = convertToPythonParams v)
    ∧ convertToPythonParams .pNull = .pNull
    ∧ convertToPythonParams .pUndef = .pUndef
    ∧ (∀ b : Bool, convertToPythonParams (.pBool b) = .pBool b)
    ∧ (∀ q : ℚ, convertToPythonParams (.pNum q) = .pNum q)
    ∧ (∀ s : String, convertToPythonParams (.pStr s) = .pStr s)
    ∧ (∀ xs : List JParam, convertToPythonParams (.pArr xs) = .pArr xs) := by
  refine ⟨convertToPythonParams_converted, ?_, ?_, ?_, ?_, ?_, ?_⟩ <;>
    simp [convertToPythonParams]

end Nexus
